import Mathlib

/-!
# Verification of the RSS-to-KV bot pipeline (src/rss_bot.py)

Shallow embedding of the single-file Python program `rss_bot.py` and proofs
about the claims of its specification.  Python strings are modelled as
`List Char` (`PyStr`), the history file as `Option PyStr` (`none` = file does
not exist), and the external collaborators of the program (feed library,
HTML parser, SMTP session, clock, filesystem success/failure) appear as
explicit parameters of the embedded functions.
-/

set_option maxHeartbeats 1000000

abbrev PyStr := List Char

/-- Python `str` whitespace test restricted to the ASCII whitespace
characters that `str.strip()` removes: space, tab, newline, carriage
return, vertical tab and form feed. -/
def pyIsSpace (c : Char) : Bool :=
  c = ' ' || c = '\t' || c = '\n' || c = '\x0d' || c = '\x0b' || c = '\x0c'

/-- Remove leading whitespace (Python `str.lstrip()`). -/
def pyLStrip : PyStr → PyStr
  | [] => []
  | c :: cs => if pyIsSpace c then pyLStrip cs else c :: cs

/-- Remove trailing whitespace (Python `str.rstrip()`). -/
def pyRStrip (s : PyStr) : PyStr :=
  (pyLStrip s.reverse).reverse

/-- Python `str.strip()`: remove leading and trailing whitespace. -/
def pyStrip (s : PyStr) : PyStr :=
  pyLStrip (pyRStrip s)

/-- Python `str.split(sep)` for a one-character separator: `"".split(sep)`
is `[""]`, and every occurrence of the separator starts a new piece. -/
def pySplit (sep : Char) : PyStr → List PyStr
  | [] => [[]]
  | c :: cs =>
    if c = sep then [] :: pySplit sep cs
    else
      match pySplit sep cs with
      | [] => [[c]]
      | l :: ls => (c :: l) :: ls

/-- Iterating a Python text file yields its lines, each keeping its
terminating newline; a final fragment without a newline is kept, and the
empty file yields no lines. -/
def pyFileLines : PyStr → List PyStr
  | [] => []
  | c :: cs =>
    if c = '\n' then ['\n'] :: pyFileLines cs
    else
      match pyFileLines cs with
      | [] => [[c]]
      | l :: ls => (c :: l) :: ls

/-- Line 22 of `rss_bot.py`:
`RECIPIENTS = [email.strip() for email in recipients_raw.split(',') if email.strip()]`. -/
def parseRecipients (recipients_raw : PyStr) : List PyStr :=
  ((pySplit ',' recipients_raw).filter (fun e => pyStrip e ≠ [])).map pyStrip

/-- `load_sent_posts` (lines 27-32): `set()` if the history file does not
exist, else the set of the stripped lines of the file. -/
def load_sent_posts (hist : Option PyStr) : Finset PyStr :=
  match hist with
  | none => ∅
  | some c => ((pyFileLines c).map pyStrip).toFinset

/-- Contents of the history file, `[]` when the file does not exist (this
is what opening in append mode starts from). -/
def fileContent (hist : Option PyStr) : PyStr :=
  hist.getD []

/-- `save_sent_post` (lines 34-37): append `f"{post_id}\n"` to the history
file, creating it if missing. -/
def save_sent_post (hist : Option PyStr) (post_id : PyStr) : Option PyStr :=
  some (fileContent hist ++ post_id ++ ['\n'])

/-- A history file state is well formed when the file is absent, empty, or
ends with a newline.  Every file produced by `save_sent_post` is well
formed. -/
def wfHist : Option PyStr → Bool
  | none => true
  | some c => c = [] || c.getLast? = some '\n'

/-! ## The parsed HTML document tree

`BeautifulSoup(html, 'html.parser')` (a black-box library per the spec) is
modelled by its output: a forest of nodes, each node a text fragment or an
element with a tag name, attributes and children.  `find_all` returns the
matching elements among the strict descendants in document (pre-order)
order; at the top level the whole forest is searched. -/

inductive Node where
  | text : PyStr → Node
  | elem : PyStr → List (PyStr × PyStr) → List Node → Node

/-- Does a node match one of the tag names given to `find_all`? -/
def matchesTag (names : List PyStr) : Node → Bool
  | .text _ => false
  | .elem t _ _ => decide (t ∈ names)

mutual

/-- `tag.find_all(names)`: matching strict descendants of a node, in
document order. -/
def findAllNode (names : List PyStr) : Node → List Node
  | .text _ => []
  | .elem _ _ cs => findAllNodes names cs

/-- `soup.find_all(names)` over a forest: matching elements (each node
itself and then its descendants), in document order. -/
def findAllNodes (names : List PyStr) : List Node → List Node
  | [] => []
  | n :: ns =>
    (if matchesTag names n then [n] else []) ++ findAllNode names n ++ findAllNodes names ns

end

mutual

/-- The text fragments below a node, in document order (the `.strings` of
BeautifulSoup). -/
def stringsNode : Node → List PyStr
  | .text s => [s]
  | .elem _ _ cs => stringsList cs

def stringsList : List Node → List PyStr
  | [] => []
  | n :: ns => stringsNode n ++ stringsList ns

end

/-- `tag.get_text(strip=True)`: every text fragment below the tag is
stripped, empty results are dropped, and the rest are concatenated. -/
def getTextStrip (n : Node) : PyStr :=
  (((stringsNode n).map pyStrip).filter (fun s => s ≠ [])).flatten

/-- `tag.get(key)`: first attribute with the given name, if any. -/
def getAttr (k : PyStr) : Node → Option PyStr
  | .text _ => none
  | .elem _ attrs _ => (attrs.find? (fun p => decide (p.1 = k))).map (fun p => p.2)

structure Extracted where
  detected_lists : List (List PyStr)
  images : List PyStr
deriving DecidableEq

/-- The group `extract_arrays_from_html` builds from one `<ul>`/`<ol>`
element (lines 55-57): the stripped text of every `<li>` descendant;
`none` when that list is empty (`if clean_list:`). -/
def groupOf (t : Node) : Option (List PyStr) :=
  let clean := (findAllNode [['l', 'i']] t).map getTextStrip
  if clean = [] then none else some clean

/-- Lines 61-62: `src = img.get('src')` followed by the truthiness test
`if src:`, which skips an image both when the attribute is missing
(`None`) and when it is present but the empty string. -/
def imgSrcOf (t : Node) : Option PyStr :=
  match getAttr ['s', 'r', 'c'] t with
  | none => none
  | some v => if v = [] then none else some v

/-- `extract_arrays_from_html` (lines 39-65) on the parsed document. -/
def extract_arrays_from_html (doc : List Node) : Extracted :=
  { detected_lists := (findAllNodes [['u', 'l'], ['o', 'l']] doc).filterMap groupOf
    images := (findAllNodes [['i', 'm', 'g']] doc).filterMap imgSrcOf }

/-! ## Independent specification-side traversals

These follow the wording of the spec, not the source, and are compared
with `extract_arrays_from_html` in the theorems. -/

mutual

/-- Trimmed texts of the list-item descendants (any depth) of a node, in
document order. -/
def liTextsNode : Node → List PyStr
  | .text _ => []
  | .elem _ _ cs => liTextsList cs

def liTextsList : List Node → List PyStr
  | [] => []
  | n :: ns =>
    (match n with
     | .elem t _ _ => if t = ['l', 'i'] then [getTextStrip n] else []
     | .text _ => []) ++ liTextsNode n ++ liTextsList ns

end

/-- Trimmed texts of the direct (child) list items of a node. -/
def directLiTexts : Node → List PyStr
  | .text _ => []
  | .elem _ _ cs =>
    cs.filterMap (fun c =>
      match c with
      | .elem t _ _ => if t = ['l', 'i'] then some (getTextStrip c) else none
      | .text _ => none)

mutual

/-- Spec reading of `content_lists` with "direct list-item descendant"
read as direct children: one group of direct-child item texts per
`<ul>`/`<ol>` in document order, empty groups omitted. -/
def specGroupsDirectNode : Node → List (List PyStr)
  | .text _ => []
  | .elem t a cs =>
    (if (t = ['u', 'l'] ∨ t = ['o', 'l']) ∧ directLiTexts (.elem t a cs) ≠ []
     then [directLiTexts (.elem t a cs)] else []) ++ specGroupsDirectList cs

def specGroupsDirectList : List Node → List (List PyStr)
  | [] => []
  | n :: ns => specGroupsDirectNode n ++ specGroupsDirectList ns

end

mutual

/-- Spec reading of `content_lists` amended to items at any depth: one
group per `<ul>`/`<ol>` in document order, holding the trimmed text of
every list-item descendant, empty groups omitted. -/
def specGroupsNode : Node → List (List PyStr)
  | .text _ => []
  | .elem t _ cs =>
    (if (t = ['u', 'l'] ∨ t = ['o', 'l']) ∧ liTextsList cs ≠ []
     then [liTextsList cs] else []) ++ specGroupsList cs

def specGroupsList : List Node → List (List PyStr)
  | [] => []
  | n :: ns => specGroupsNode n ++ specGroupsList ns

end

mutual

/-- Spec reading of `images`: for every image element in document order
its `src` attribute value, images lacking the attribute skipped. -/
def specImagesNode : Node → List PyStr
  | .text _ => []
  | .elem t attrs cs =>
    (if t = ['i', 'm', 'g'] then
       match getAttr ['s', 'r', 'c'] (.elem t attrs cs) with
       | some v => [v]
       | none => []
     else []) ++ specImagesList cs

def specImagesList : List Node → List PyStr
  | [] => []
  | n :: ns => specImagesNode n ++ specImagesList ns

end

mutual

/-- Spec reading of `images` amended to the code's truthiness test: for
every image element in document order its `src` attribute value, images
lacking the attribute or carrying an empty one skipped. -/
def specImagesTruthyNode : Node → List PyStr
  | .text _ => []
  | .elem t attrs cs =>
    (if t = ['i', 'm', 'g'] then
       match getAttr ['s', 'r', 'c'] (.elem t attrs cs) with
       | some v => if v = [] then [] else [v]
       | none => []
     else []) ++ specImagesTruthyList cs

def specImagesTruthyList : List Node → List PyStr
  | [] => []
  | n :: ns => specImagesTruthyNode n ++ specImagesTruthyList ns

end

/-- A document holding a single image with a present but empty source,
`<img src="">`. -/
def emptySrcDoc : List Node :=
  [ .elem ['i', 'm', 'g'] [(['s', 'r', 'c'], [])] [] ]

/-- The document of the spec's extraction-correctness test:
`<ul><li>A</li><li>B</li></ul><p>text</p><ol><li>C</li></ol><img src="x.png">`. -/
def c4doc : List Node :=
  [ .elem ['u', 'l'] [] [.elem ['l', 'i'] [] [.text ['A']], .elem ['l', 'i'] [] [.text ['B']]]
  , .elem ['p'] [] [.text ['t', 'e', 'x', 't']]
  , .elem ['o', 'l'] [] [.elem ['l', 'i'] [] [.text ['C']]]
  , .elem ['i', 'm', 'g'] [(['s', 'r', 'c'], ['x', '.', 'p', 'n', 'g'])] [] ]

/-- A document with a nested list,
`<ul><li>A</li><ul><li>B</li></ul></ul>`: the outer `<ul>` has one direct
`<li>` child but two `<li>` descendants. -/
def nestedDoc : List Node :=
  [ .elem ['u', 'l'] []
      [ .elem ['l', 'i'] [] [.text ['A']]
      , .elem ['u', 'l'] [] [.elem ['l', 'i'] [] [.text ['B']]] ] ]

/-! ## `json.dumps(post_data, indent=4)` and `json.loads`

The Python standard-library serializer (default options: `ensure_ascii`,
separators `(',', ': ')` with `indent=4`) is modelled character for
character for the shape of record the program serializes, and a parser
modelling `json.loads` on such documents is defined to state the
round-trip property of the generated artifact. -/

/-- Lowercase hexadecimal digit, as `'{0:04x}'.format` produces. -/
def hexDigit (n : Nat) : Char :=
  if n < 10 then Char.ofNat (48 + n) else Char.ofNat (87 + n)

/-- Four lowercase hexadecimal digits of a number below `0x10000`. -/
def hex4 (n : Nat) : PyStr :=
  [hexDigit (n / 4096 % 16), hexDigit (n / 256 % 16), hexDigit (n / 16 % 16), hexDigit (n % 16)]

/-- How `json.dumps` (with `ensure_ascii=True`, the default) writes one
character of a string: printable ASCII other than `"` and `\` is kept,
the short escapes are used where they exist, every other character below
`0x10000` becomes `\uXXXX`, and astral characters become a surrogate
pair. -/
def escapeChar (c : Char) : PyStr :=
  if c = '"' then ['\\', '"']
  else if c = '\\' then ['\\', '\\']
  else if c = '\n' then ['\\', 'n']
  else if c = '\x0d' then ['\\', 'r']
  else if c = '\t' then ['\\', 't']
  else if c = '\x08' then ['\\', 'b']
  else if c = '\x0c' then ['\\', 'f']
  else if 0x20 ≤ c.toNat ∧ c.toNat ≤ 0x7e then [c]
  else if c.toNat < 0x10000 then '\\' :: 'u' :: hex4 c.toNat
  else
    ('\\' :: 'u' :: hex4 (0xd800 + (c.toNat - 0x10000) / 0x400)) ++
    ('\\' :: 'u' :: hex4 (0xdc00 + (c.toNat - 0x10000) % 0x400))

/-- Escape every character of a string. -/
def escList : PyStr → PyStr
  | [] => []
  | c :: cs => escapeChar c ++ escList cs

/-- A JSON string literal: `"` + escaped body + `"`. -/
def encStr (s : PyStr) : PyStr :=
  '"' :: (escList s ++ ['"'])

/-- `n` spaces of indentation. -/
def spaces (n : Nat) : PyStr :=
  List.replicate n ' '

/-- After the first element of a non-empty indented JSON array: either
`,\n` + indentation + next element, or `\n` + closing-bracket
indentation + `]`. -/
def dumpsItemsRest {α : Type} (lvl : Nat) (render : α → PyStr) : List α → PyStr
  | [] => '\n' :: (spaces (lvl * 4) ++ [']'])
  | x :: xs => ',' :: '\n' :: (spaces ((lvl + 1) * 4) ++ render x ++ dumpsItemsRest lvl render xs)

/-- An array under `json.dumps(..., indent=4)` at nesting level `lvl`:
`[]` when empty, else one element per line. -/
def dumpsList {α : Type} (lvl : Nat) (render : α → PyStr) (xs : List α) : PyStr :=
  match xs with
  | [] => ['[', ']']
  | x :: xs => '[' :: '\n' :: (spaces ((lvl + 1) * 4) ++ render x ++ dumpsItemsRest lvl render xs)

/-- `"<key>": ` prefixed by the four spaces of top-level indentation. -/
def fieldHdr (key : PyStr) : PyStr :=
  spaces 4 ++ encStr key ++ [':', ' ']

/-- The record the job serializes into the report (step 4 of `job`,
lines 126-134). -/
structure PostData where
  title : PyStr
  link : PyStr
  published : PyStr
  tags : List PyStr
  images : List PyStr
  content_lists : List (List PyStr)
  full_content : PyStr
deriving DecidableEq

/-- `json.dumps(post_data, indent=4)`: the keys appear in insertion
order, each on its own line. -/
def dumps (pd : PostData) : PyStr :=
  ['{', '\n'] ++
  fieldHdr ['t', 'i', 't', 'l', 'e'] ++ encStr pd.title ++ [',', '\n'] ++
  fieldHdr ['l', 'i', 'n', 'k'] ++ encStr pd.link ++ [',', '\n'] ++
  fieldHdr ['p', 'u', 'b', 'l', 'i', 's', 'h', 'e', 'd'] ++ encStr pd.published ++ [',', '\n'] ++
  fieldHdr ['t', 'a', 'g', 's'] ++ dumpsList 1 encStr pd.tags ++ [',', '\n'] ++
  fieldHdr ['i', 'm', 'a', 'g', 'e', 's'] ++ dumpsList 1 encStr pd.images ++ [',', '\n'] ++
  fieldHdr ['c', 'o', 'n', 't', 'e', 'n', 't', '_', 'l', 'i', 's', 't', 's'] ++
    dumpsList 1 (dumpsList 2 encStr) pd.content_lists ++ [',', '\n'] ++
  fieldHdr ['f', 'u', 'l', 'l', '_', 'c', 'o', 'n', 't', 'e', 'n', 't'] ++
    encStr pd.full_content ++ ['\n', '}']

/-- Consume an expected literal text from the front of the input. -/
def dropLit : PyStr → PyStr → Option PyStr
  | [], s => some s
  | _ :: _, [] => none
  | p :: ps, c :: cs => if c = p then dropLit ps cs else none

/-- Value of one hexadecimal digit (`json.loads` accepts both cases). -/
def hexVal (c : Char) : Option Nat :=
  if 48 ≤ c.toNat ∧ c.toNat ≤ 57 then some (c.toNat - 48)
  else if 97 ≤ c.toNat ∧ c.toNat ≤ 102 then some (c.toNat - 87)
  else if 65 ≤ c.toNat ∧ c.toNat ≤ 70 then some (c.toNat - 55)
  else none

/-- Value of a four-digit hexadecimal escape. -/
def hex4Val (a b c d : Char) : Option Nat :=
  match hexVal a, hexVal b, hexVal c, hexVal d with
  | some va, some vb, some vc, some vd => some (va * 4096 + vb * 256 + vc * 16 + vd)
  | _, _, _, _ => none

/-- Body of a JSON string literal, after the opening quote: the decoded
characters and the input after the closing quote.  Unescaped control
characters are rejected (`json.loads` default `strict=True`), `\uXXXX`
escapes are decoded, and a high surrogate must be completed by a low
surrogate (Lean characters are Unicode scalar values). -/
def parseStrBody : PyStr → Option (PyStr × PyStr)
  | '"' :: rest => some ([], rest)
  | '\\' :: 'u' :: a :: b :: c2 :: d :: rest3 =>
    (match hex4Val a b c2 d with
     | none => none
     | some hi =>
       if 0xd800 ≤ hi ∧ hi < 0xdc00 then
         match rest3 with
         | '\\' :: 'u' :: a2 :: b2 :: c3 :: d2 :: rest4 =>
           (match hex4Val a2 b2 c3 d2 with
            | none => none
            | some lo =>
              if 0xdc00 ≤ lo ∧ lo < 0xe000 then
                (parseStrBody rest4).map (fun r =>
                  (Char.ofNat (0x10000 + (hi - 0xd800) * 0x400 + (lo - 0xdc00)) :: r.1, r.2))
              else none)
         | _ => none
       else if 0xdc00 ≤ hi ∧ hi < 0xe000 then none
       else (parseStrBody rest3).map (fun r => (Char.ofNat hi :: r.1, r.2)))
  | '\\' :: '"' :: rest2 => (parseStrBody rest2).map (fun r => ('"' :: r.1, r.2))
  | '\\' :: '\\' :: rest2 => (parseStrBody rest2).map (fun r => ('\\' :: r.1, r.2))
  | '\\' :: '/' :: rest2 => (parseStrBody rest2).map (fun r => ('/' :: r.1, r.2))
  | '\\' :: 'n' :: rest2 => (parseStrBody rest2).map (fun r => ('\n' :: r.1, r.2))
  | '\\' :: 'r' :: rest2 => (parseStrBody rest2).map (fun r => ('\x0d' :: r.1, r.2))
  | '\\' :: 't' :: rest2 => (parseStrBody rest2).map (fun r => ('\t' :: r.1, r.2))
  | '\\' :: 'b' :: rest2 => (parseStrBody rest2).map (fun r => ('\x08' :: r.1, r.2))
  | '\\' :: 'f' :: rest2 => (parseStrBody rest2).map (fun r => ('\x0c' :: r.1, r.2))
  | '\\' :: _ => none
  | c :: rest =>
    if c.toNat < 0x20 then none
    else (parseStrBody rest).map (fun r => (c :: r.1, r.2))
  | [] => none

/-- A complete JSON string literal. -/
def parseJStr (s : PyStr) : Option (PyStr × PyStr) :=
  match s with
  | [] => none
  | c :: rest => if c = '"' then parseStrBody rest else none

/-- Elements of an indented JSON array after the first one: either
`,\n` + indentation + element, or the closing line.  `fuel` bounds the
number of elements. -/
def parseItemsRest {α : Type} (pItem : PyStr → Option (α × PyStr)) (lvl : Nat) :
    Nat → PyStr → Option (List α × PyStr)
  | 0, _ => none
  | fuel + 1, s =>
    match dropLit (',' :: '\n' :: spaces ((lvl + 1) * 4)) s with
    | some s1 =>
      match pItem s1 with
      | none => none
      | some (x, s2) =>
        (parseItemsRest pItem lvl fuel s2).map (fun r => (x :: r.1, r.2))
    | none =>
      (dropLit ('\n' :: (spaces (lvl * 4) ++ [']'])) s).map (fun r => ([], r))

/-- An indented JSON array at nesting level `lvl`. -/
def parseArr {α : Type} (pItem : PyStr → Option (α × PyStr)) (lvl fuel : Nat) (s : PyStr) :
    Option (List α × PyStr) :=
  match dropLit ['[', ']'] s with
  | some r => some ([], r)
  | none =>
    match dropLit ('[' :: '\n' :: spaces ((lvl + 1) * 4)) s with
    | none => none
    | some s1 =>
      match pItem s1 with
      | none => none
      | some (x, s2) =>
        (parseItemsRest pItem lvl fuel s2).map (fun r => (x :: r.1, r.2))

/-- `json.loads` restricted to documents of the exact shape `dumps`
produces: the seven known keys in order, indented with four spaces, and
nothing after the closing brace.  `fuel` bounds the array lengths. -/
def parsePostF (fuel : Nat) (s : PyStr) : Option PostData :=
  match dropLit ['{', '\n'] s with
  | none => none
  | some s1 =>
  match dropLit (fieldHdr ['t', 'i', 't', 'l', 'e']) s1 with
  | none => none
  | some s2 =>
  match parseJStr s2 with
  | none => none
  | some (title, s3) =>
  match dropLit ([',', '\n'] ++ fieldHdr ['l', 'i', 'n', 'k']) s3 with
  | none => none
  | some s4 =>
  match parseJStr s4 with
  | none => none
  | some (link, s5) =>
  match dropLit ([',', '\n'] ++ fieldHdr ['p', 'u', 'b', 'l', 'i', 's', 'h', 'e', 'd']) s5 with
  | none => none
  | some s6 =>
  match parseJStr s6 with
  | none => none
  | some (published, s7) =>
  match dropLit ([',', '\n'] ++ fieldHdr ['t', 'a', 'g', 's']) s7 with
  | none => none
  | some s8 =>
  match parseArr parseJStr 1 fuel s8 with
  | none => none
  | some (tags, s9) =>
  match dropLit ([',', '\n'] ++ fieldHdr ['i', 'm', 'a', 'g', 'e', 's']) s9 with
  | none => none
  | some s10 =>
  match parseArr parseJStr 1 fuel s10 with
  | none => none
  | some (images, s11) =>
  match dropLit ([',', '\n'] ++ fieldHdr ['c', 'o', 'n', 't', 'e', 'n', 't', '_', 'l', 'i', 's', 't', 's']) s11 with
  | none => none
  | some s12 =>
  match parseArr (fun t => parseArr parseJStr 2 fuel t) 1 fuel s12 with
  | none => none
  | some (content_lists, s13) =>
  match dropLit ([',', '\n'] ++ fieldHdr ['f', 'u', 'l', 'l', '_', 'c', 'o', 'n', 't', 'e', 'n', 't']) s13 with
  | none => none
  | some s14 =>
  match parseJStr s14 with
  | none => none
  | some (full_content, s15) =>
  match dropLit ['\n', '}'] s15 with
  | none => none
  | some s16 =>
  if s16 = [] then
    some ⟨title, link, published, tags, images, content_lists, full_content⟩
  else none


/-- `json.loads` on a serialized report: the input's length bounds every
array in it. -/
def parsePost (s : PyStr) : Option PostData :=
  parsePostF (s.length + 1) s

/-! ## The report wrapper, the notifier and the job -/

/-- Text of the report before the embedded JSON (f-string of lines
140-146 up to `{json_output}`). -/
def wrapperPre : PyStr :=
  ("\n    <html>\n    <head><title>Edit Post Data</title></head>\n    <body>\n" ++
   "        <h2>New Post Data for Editing</h2>\n" ++
   "        <p>Review the JSON below, edit if necessary, and use for Cloudflare KV:</p>\n" ++
   "        <textarea style=\"width:100%; height:500px; font-family:monospace;\">").data

/-- Text of the report after the embedded JSON (f-string of lines
146-149 after `{json_output}`). -/
def wrapperSuf : PyStr :=
  "</textarea>\n    </body>\n    </html>\n    ".data

/-- The whole report file contents (line 140): the JSON text embedded
verbatim in the HTML wrapper. -/
def reportHtml (json_output : PyStr) : PyStr :=
  wrapperPre ++ json_output ++ wrapperSuf

/-- `f"post_update_{int(time.time())}.html"` (line 138). -/
def reportNameOf (now : Nat) : PyStr :=
  "post_update_".data ++ Nat.toDigits 10 now ++ ".html".data

/-- One element of a feedparser entry's `content` list (only its `value`
field is used). -/
structure ContentItem where
  value : PyStr
deriving DecidableEq

/-- One element of a feedparser entry's `tags` list (only its `term`
field is used). -/
structure TagItem where
  term : PyStr
deriving DecidableEq

/-- A feed entry as the feed-retrieval library (a black box per the spec)
returns it.  Fields read with `.get` may be absent and are `Option`s;
fields read with attribute access are assumed present. -/
structure Entry where
  id? : Option PyStr
  link : PyStr
  title : PyStr
  summary : PyStr
  published : PyStr
  tags? : Option (List TagItem)
  content? : Option (List ContentItem)
deriving DecidableEq

/-- `post_id = latest_post.get('id', latest_post.link)` (line 112). -/
def derivedId (e : Entry) : PyStr :=
  match e.id? with
  | some i => i
  | none => e.link

/-- `content_list = latest_post.get('content', [{'value': latest_post.summary}])`
(line 122). -/
def contentListOf (e : Entry) : List ContentItem :=
  e.content?.getD [⟨e.summary⟩]

/-- The `post_data` dict of lines 126-134, given the parsed-HTML function
`ph` (black-box `BeautifulSoup` constructor) and the first content
element `c0`. -/
def postDataOf (ph : PyStr → List Node) (e : Entry) (c0 : ContentItem) : PostData :=
  { title := e.title
    link := e.link
    published := e.published
    tags := (e.tags?.getD []).map TagItem.term
    images := (extract_arrays_from_html (ph c0.value)).images
    content_lists := (extract_arrays_from_html (ph c0.value)).detected_lists
    full_content := c0.value }

/-- Observable outcome of `send_email`: whether a delivery was attempted
(the body past the recipients check ran) and whether it succeeded. -/
structure SendOutcome where
  attempted : Bool
  delivered : Bool
deriving DecidableEq

/-- Outcome when `send_email` is never reached, or returns at the empty
recipients check. -/
def noSend : SendOutcome := ⟨false, false⟩

/-- `send_email` (lines 67-97).  The fallible work inside the `try` block
(opening the attachment, the SMTP session) is summarized by `attachOk`
and `smtp`; the `except` clause catches every failure, so the function
always returns (it never propagates an exception). -/
def send_email (recipients : List PyStr) (attachOk : Bool) (smtp : Except PyStr Unit) :
    SendOutcome :=
  if recipients = [] then noSend
  else
    match (if attachOk then smtp else Except.error "FileNotFoundError".data) with
    | .ok _ => ⟨true, true⟩
    | .error _ => ⟨true, false⟩

/-- Side effects of one tick of `job`: the history file afterwards, the
report file written (name and contents), and the email outcome. -/
structure JobEffects where
  historyFile : Option PyStr
  reportFile : Option (PyStr × PyStr)
  emailOutcome : SendOutcome
deriving DecidableEq

/-- Effects of a tick that stops before writing anything. -/
def skipEffects (hist : Option PyStr) : JobEffects :=
  ⟨hist, none, noSend⟩

/-- `job` (lines 99-159).  Inputs stand for the black-box collaborators:
`ph` the HTML parser, `entries` the fetched feed, `hist` the history file
on disk, `recipients` the configured recipient list, `attachOk`/`smtp`
the fallible externals inside `send_email`, `writeOk` whether the report
write succeeds, `now` the clock.  An uncaught Python exception is
`Except.error`. -/
def job (ph : PyStr → List Node) (entries : List Entry) (hist : Option PyStr)
    (recipients : List PyStr) (attachOk : Bool) (smtp : Except PyStr Unit)
    (writeOk : Bool) (now : Nat) : Except PyStr JobEffects :=
  let sent_posts := load_sent_posts hist
  match entries with
  | [] => .ok (skipEffects hist)
  | latest :: _ =>
    if derivedId latest ∈ sent_posts then .ok (skipEffects hist)
    else
      match contentListOf latest with
      | [] => .error "IndexError".data
      | c0 :: _ =>
        let json_output := dumps (postDataOf ph latest c0)
        if writeOk then
          .ok { historyFile := save_sent_post hist (derivedId latest)
                reportFile := some (reportNameOf now, reportHtml json_output)
                emailOutcome := send_email recipients attachOk smtp }
        else .error "OSError".data

/-! ## Concrete inputs used in witnesses and counterexamples -/

/-- A concrete stand-in for the black-box HTML parser. -/
def phNull : PyStr → List Node := fun _ => []

/-- An entry with no explicit `id`. -/
def eNoId : Entry :=
  { id? := none, link := ['L'], title := ['T'], summary := ['S'], published := ['P']
    tags? := some [], content? := some [⟨['h']⟩] }

/-- An entry whose `id` is `" x "`: whitespace around the identifier does
not survive the history file round trip. -/
def eWs : Entry :=
  { id? := some [' ', 'x', ' '], link := ['L'], title := ['T'], summary := ['S']
    published := ['P'], tags? := some [], content? := some [⟨['h']⟩] }

/-- A well-behaved entry with explicit `id` `"x"`. -/
def eId : Entry :=
  { id? := some ['x'], link := ['L'], title := ['T'], summary := ['S'], published := ['P']
    tags? := some [], content? := some [⟨['h']⟩] }

/-- An entry with no `content` field. -/
def eNoContent : Entry :=
  { id? := some ['x'], link := ['L'], title := ['T'], summary := ['S'], published := ['P']
    tags? := some [], content? := none }

deriving instance DecidableEq for Except

/-! ## Lemmas about the history file -/

theorem pyFileLines_cons_nl (cs : PyStr) : pyFileLines ('\n' :: cs) = ['\n'] :: pyFileLines cs := by
  rw [pyFileLines]
  simp

theorem pyFileLines_cons_cons (x : Char) (cs l : PyStr) (ls : List PyStr) (hx : x ≠ '\n')
    (h : pyFileLines cs = l :: ls) : pyFileLines (x :: cs) = (x :: l) :: ls := by
  rw [pyFileLines]
  simp [hx, h]

theorem pyFileLines_ne_nil (c : PyStr) (h : c ≠ []) : pyFileLines c ≠ [] := by
  cases c with
  | nil => exact absurd rfl h
  | cons x cs =>
    by_cases hx : x = '\n'
    · subst hx
      rw [pyFileLines_cons_nl]
      simp
    · cases hls : pyFileLines cs with
      | nil =>
        rw [pyFileLines]
        simp [hx, hls]
      | cons l ls =>
        rw [pyFileLines_cons_cons x cs l ls hx hls]
        simp

theorem pyFileLines_append (c d : PyStr) (h : c = [] ∨ c.getLast? = some '\n') :
    pyFileLines (c ++ d) = pyFileLines c ++ pyFileLines d := by
  induction c with
  | nil => simp [pyFileLines]
  | cons x cs ih =>
    rcases h with h | h
    · exact absurd h (by simp)
    cases cs with
    | nil =>
      simp only [List.getLast?_singleton, Option.some.injEq] at h
      subst h
      simp [pyFileLines_cons_nl, pyFileLines]
    | cons y ys =>
      rw [List.getLast?_cons_cons] at h
      have ihe := ih (Or.inr h)
      by_cases hx : x = '\n'
      · subst hx
        rw [show (('\n' :: y :: ys) ++ d) = '\n' :: ((y :: ys) ++ d) from rfl,
          pyFileLines_cons_nl, pyFileLines_cons_nl, ihe]
        simp
      · cases hll : pyFileLines (y :: ys) with
        | nil => exact absurd hll (pyFileLines_ne_nil _ (by simp))
        | cons l ls =>
          have hled : pyFileLines ((y :: ys) ++ d) = l :: (ls ++ pyFileLines d) := by
            rw [ihe, hll]
            rfl
          rw [show ((x :: y :: ys) ++ d) = x :: ((y :: ys) ++ d) from rfl,
            pyFileLines_cons_cons x _ _ _ hx hled, pyFileLines_cons_cons x _ _ _ hx hll]
          rfl

theorem pyFileLines_single (id : PyStr) (h : '\n' ∉ id) :
    pyFileLines (id ++ ['\n']) = [id ++ ['\n']] := by
  induction id with
  | nil => simp [pyFileLines_cons_nl, pyFileLines]
  | cons c cs ih =>
    have hc : c ≠ '\n' := fun hc => h (hc ▸ List.mem_cons_self c cs)
    have ihe := ih (fun hm => h (List.mem_cons_of_mem c hm))
    rw [show ((c :: cs) ++ ['\n']) = c :: (cs ++ ['\n']) from rfl,
      pyFileLines_cons_cons c _ _ _ hc ihe]

theorem pyStrip_newline (id : PyStr) : pyStrip (id ++ ['\n']) = pyStrip id := by
  have h1 : pyRStrip (id ++ ['\n']) = pyRStrip id := by
    simp only [pyRStrip, List.reverse_append, List.reverse_cons, List.reverse_nil,
      List.nil_append, List.singleton_append]
    rw [pyLStrip]
    simp [pyIsSpace]
  rw [pyStrip, h1, pyStrip]

theorem load_eq_lines (hist : Option PyStr) :
    load_sent_posts hist = ((pyFileLines (fileContent hist)).map pyStrip).toFinset := by
  cases hist <;> simp [load_sent_posts, fileContent, pyFileLines]

theorem load_save (hist : Option PyStr) (id : PyStr) (hwf : wfHist hist = true)
    (hn : '\n' ∉ id) :
    load_sent_posts (save_sent_post hist id) = load_sent_posts hist ∪ {pyStrip id} := by
  have hsplit : pyFileLines (fileContent hist ++ (id ++ ['\n'])) =
      pyFileLines (fileContent hist) ++ pyFileLines (id ++ ['\n']) := by
    apply pyFileLines_append
    cases hist with
    | none => simp [fileContent]
    | some c =>
      simp only [wfHist, Bool.or_eq_true, decide_eq_true_eq] at hwf
      exact hwf
  rw [load_eq_lines, save_sent_post, load_eq_lines]
  show (List.map pyStrip (pyFileLines (fileContent hist ++ id ++ ['\n']))).toFinset = _
  rw [List.append_assoc, hsplit, pyFileLines_single id hn]
  simp [pyStrip_newline]

theorem wfHist_save (hist : Option PyStr) (id : PyStr) :
    wfHist (save_sent_post hist id) = true := by
  simp only [save_sent_post, wfHist]
  simp [List.getLast?_concat]

theorem mem_load_save (hist : Option PyStr) (id : PyStr) (hwf : wfHist hist = true)
    (hn : '\n' ∉ id) (hs : pyStrip id = id) :
    id ∈ load_sent_posts (save_sent_post hist id) := by
  rw [load_save hist id hwf hn]
  simp [hs]

/-! ## Lemmas about one tick of `job` -/

theorem job_skip (ph : PyStr → List Node) (e : Entry) (es : List Entry) (hist : Option PyStr)
    (recipients : List PyStr) (attachOk : Bool) (smtp : Except PyStr Unit)
    (writeOk : Bool) (now : Nat) (h : derivedId e ∈ load_sent_posts hist) :
    job ph (e :: es) hist recipients attachOk smtp writeOk now = .ok (skipEffects hist) := by
  simp [job, h]

theorem job_success (ph : PyStr → List Node) (e : Entry) (es : List Entry) (hist : Option PyStr)
    (recipients : List PyStr) (attachOk : Bool) (smtp : Except PyStr Unit) (now : Nat)
    (c0 : ContentItem) (cs : List ContentItem)
    (h : derivedId e ∉ load_sent_posts hist) (hc : contentListOf e = c0 :: cs) :
    job ph (e :: es) hist recipients attachOk smtp true now =
      .ok { historyFile := save_sent_post hist (derivedId e)
            reportFile := some (reportNameOf now, reportHtml (dumps (postDataOf ph e c0)))
            emailOutcome := send_email recipients attachOk smtp } := by
  simp [job, h, hc]

theorem job_index_error (ph : PyStr → List Node) (e : Entry) (es : List Entry)
    (hist : Option PyStr) (recipients : List PyStr) (attachOk : Bool)
    (smtp : Except PyStr Unit) (writeOk : Bool) (now : Nat)
    (h : derivedId e ∉ load_sent_posts hist) (hc : contentListOf e = []) :
    job ph (e :: es) hist recipients attachOk smtp writeOk now = .error "IndexError".data := by
  simp [job, h, hc]

/-! ## Claims C1, C7, C8, C9 -/

/-- C1: when the newest entry's derived identifier is already in the
history set loaded at the start of the tick, `job` performs no further
action: no report file, no email attempt, history file unchanged. -/
theorem C1_seen_id_noop (ph : PyStr → List Node) (e : Entry) (es : List Entry)
    (hist : Option PyStr) (recipients : List PyStr) (attachOk : Bool)
    (smtp : Except PyStr Unit) (writeOk : Bool) (now : Nat)
    (h : derivedId e ∈ load_sent_posts hist) :
    job ph (e :: es) hist recipients attachOk smtp writeOk now =
      .ok { historyFile := hist, reportFile := none, emailOutcome := noSend } :=
  job_skip ph e es hist recipients attachOk smtp writeOk now h

/-- Witness for C1 at a concrete entry and history file. -/
theorem C1_witness :
    derivedId eNoId ∈ load_sent_posts (some ['L', '\n']) ∧
    job phNull [eNoId] (some ['L', '\n']) [] true (.ok ()) true 0 =
      .ok { historyFile := some ['L', '\n'], reportFile := none, emailOutcome := noSend } :=
  ⟨by decide, C1_seen_id_noop phNull eNoId [] (some ['L', '\n']) [] true (.ok ()) true 0 (by decide)⟩

/-- C8: a tick whose fetched feed has no entries ends with no side
effects: no report file, no email attempt, history file unchanged. -/
theorem C8_empty_feed_noop (ph : PyStr → List Node) (hist : Option PyStr)
    (recipients : List PyStr) (attachOk : Bool) (smtp : Except PyStr Unit)
    (writeOk : Bool) (now : Nat) :
    job ph [] hist recipients attachOk smtp writeOk now =
      .ok { historyFile := hist, reportFile := none, emailOutcome := noSend } :=
  rfl

/-- C7 fails as stated: `save_sent_post " x "` followed by
`load_sent_posts` does not contain `" x "`, because loading strips each
line. -/
theorem C7_counterexample :
    ¬ ([' ', 'x', ' '] ∈ load_sent_posts (save_sent_post none [' ', 'x', ' '])) := by
  decide

/-- C7 (amended): `load_sent_posts` of a missing file is the empty set;
for an identifier without a newline, `save_sent_post` appends exactly one
line holding it (no deduplication); if the identifier moreover equals its
own strip, a subsequent load contains it, and a duplicate save collapses
to one element under the set semantics of load. -/
theorem C7_history_store (hist : Option PyStr) (idv : PyStr) :
    load_sent_posts none = ∅ ∧
    (wfHist hist = true → '\n' ∉ idv →
      pyFileLines (fileContent (save_sent_post hist idv)) =
        pyFileLines (fileContent hist) ++ [idv ++ ['\n']]) ∧
    (wfHist hist = true → '\n' ∉ idv → pyStrip idv = idv →
      idv ∈ load_sent_posts (save_sent_post hist idv) ∧
      load_sent_posts (save_sent_post (save_sent_post hist idv) idv) =
        load_sent_posts (save_sent_post hist idv)) := by
  refine ⟨rfl, ?_, ?_⟩
  · intro hwf hn
    show pyFileLines (fileContent hist ++ idv ++ ['\n']) = _
    rw [List.append_assoc]
    rw [pyFileLines_append _ _ ?_, pyFileLines_single idv hn]
    cases hist with
    | none => simp [fileContent]
    | some c =>
      simp only [wfHist, Bool.or_eq_true, decide_eq_true_eq] at hwf
      exact hwf
  · intro hwf hn hs
    refine ⟨mem_load_save hist idv hwf hn hs, ?_⟩
    rw [load_save _ _ (wfHist_save hist idv) hn, load_save _ _ hwf hn]
    simp [Finset.union_assoc]

/-- Witness for C7 (amended) at a concrete identifier. -/
theorem C7_witness :
    load_sent_posts none = ∅ ∧
    pyFileLines (fileContent (save_sent_post none ['x'])) =
      pyFileLines (fileContent none) ++ [['x'] ++ ['\n']] ∧
    (['x'] ∈ load_sent_posts (save_sent_post none ['x']) ∧
      load_sent_posts (save_sent_post (save_sent_post none ['x']) ['x']) =
        load_sent_posts (save_sent_post none ['x'])) :=
  ⟨(C7_history_store none ['x']).1,
   (C7_history_store none ['x']).2.1 (by decide) (by decide),
   (C7_history_store none ['x']).2.2 (by decide) (by decide) (by decide)⟩

/-- The two directions of comprehension filtering: stripping then keeping
non-empty results equals keeping entries whose strip is non-empty and
stripping them. -/
theorem stripFilterMap (l : List PyStr) :
    (l.filter (fun e => pyStrip e ≠ [])).map pyStrip =
      (l.map pyStrip).filter (fun s => s ≠ []) := by
  induction l with
  | nil => rfl
  | cons e es ih =>
    by_cases h : pyStrip e = [] <;> simp [h] <;> simpa using ih

/-- C9: recipient parsing splits the environment string on commas, trims
each piece, and drops empty pieces; on `" a@x.com, b@y.com ,"` it yields
exactly `["a@x.com", "b@y.com"]`. -/
theorem C9_recipient_parsing :
    (∀ raw, parseRecipients raw = ((pySplit ',' raw).map pyStrip).filter (fun s => s ≠ [])) ∧
    parseRecipients " a@x.com, b@y.com ,".data = ["a@x.com".data, "b@y.com".data] :=
  ⟨fun raw => stripFilterMap (pySplit ',' raw), by decide⟩

/-! ## Claims C5 and C10 -/

/-- C5: the identifier used for the history lookup and the history append
is the entry's explicit `id` field when present, and exactly its `link`
field when absent. -/
theorem C5_identifier_derivation (ph : PyStr → List Node) (e : Entry) (es : List Entry)
    (hist : Option PyStr) (recipients : List PyStr) (attachOk : Bool)
    (smtp : Except PyStr Unit) (now : Nat) :
    (∀ i, e.id? = some i → derivedId e = i) ∧
    (e.id? = none → derivedId e = e.link) ∧
    (derivedId e ∈ load_sent_posts hist →
      job ph (e :: es) hist recipients attachOk smtp true now = .ok (skipEffects hist)) ∧
    (derivedId e ∉ load_sent_posts hist →
      ∀ eff, job ph (e :: es) hist recipients attachOk smtp true now = Except.ok eff →
        eff.historyFile = some (fileContent hist ++ derivedId e ++ ['\n'])) := by
  refine ⟨?_, ?_, ?_, ?_⟩
  · intro i h
    simp [derivedId, h]
  · intro h
    simp [derivedId, h]
  · intro h
    exact job_skip ph e es hist recipients attachOk smtp true now h
  · intro h eff hj
    cases hc : contentListOf e with
    | nil =>
      rw [job_index_error ph e es hist recipients attachOk smtp true now h hc] at hj
      exact absurd hj (by simp)
    | cons c0 cs =>
      rw [job_success ph e es hist recipients attachOk smtp now c0 cs h hc] at hj
      cases hj
      rfl

/-- Witness for C5 at a concrete entry lacking an explicit id. -/
theorem C5_witness :
    derivedId eNoId = eNoId.link ∧
    (∀ eff, job phNull [eNoId] none [] true (.ok ()) true 0 = Except.ok eff →
      eff.historyFile = some (fileContent none ++ derivedId eNoId ++ ['\n'])) :=
  ⟨(C5_identifier_derivation phNull eNoId [] none [] true (.ok ()) 0).2.1 rfl,
   (C5_identifier_derivation phNull eNoId [] none [] true (.ok ()) 0).2.2.2 (by decide)⟩

/-- C10: when the newest entry's `content` field is present and
non-empty, the `content_list[0]['value']` computation is in bounds and
`full_content` is the first content element's value; when the field is
absent, `full_content` is the entry's `summary` (an entry with a present
but empty `content` falls outside this guarantee and raises). -/
theorem C10_full_content (ph : PyStr → List Node) (e : Entry) (es : List Entry)
    (hist : Option PyStr) (recipients : List PyStr) (attachOk : Bool)
    (smtp : Except PyStr Unit) (now : Nat) :
    (∀ c0 cs, e.content? = some (c0 :: cs) →
      contentListOf e = c0 :: cs ∧
      (postDataOf ph e c0).full_content = c0.value ∧
      (derivedId e ∉ load_sent_posts hist →
        job ph (e :: es) hist recipients attachOk smtp true now =
          .ok { historyFile := save_sent_post hist (derivedId e)
                reportFile := some (reportNameOf now, reportHtml (dumps (postDataOf ph e c0)))
                emailOutcome := send_email recipients attachOk smtp })) ∧
    (e.content? = none →
      contentListOf e = [⟨e.summary⟩] ∧
      (postDataOf ph e ⟨e.summary⟩).full_content = e.summary ∧
      (derivedId e ∉ load_sent_posts hist →
        job ph (e :: es) hist recipients attachOk smtp true now =
          .ok { historyFile := save_sent_post hist (derivedId e)
                reportFile := some (reportNameOf now, reportHtml (dumps (postDataOf ph e ⟨e.summary⟩)))
                emailOutcome := send_email recipients attachOk smtp })) := by
  constructor
  · intro c0 cs h
    have hc : contentListOf e = c0 :: cs := by simp [contentListOf, h]
    exact ⟨hc, rfl, fun hm => job_success ph e es hist recipients attachOk smtp now c0 cs hm hc⟩
  · intro h
    have hc : contentListOf e = [⟨e.summary⟩] := by simp [contentListOf, h]
    exact ⟨hc, rfl, fun hm => job_success ph e es hist recipients attachOk smtp now ⟨e.summary⟩ [] hm hc⟩

/-- Witness for C10 at concrete entries with present and absent content. -/
theorem C10_witness :
    (contentListOf eId = [⟨['h']⟩] ∧
      (postDataOf phNull eId ⟨['h']⟩).full_content = ['h'] ∧
      job phNull [eId] none [] true (.ok ()) true 0 =
        .ok { historyFile := save_sent_post none (derivedId eId)
              reportFile := some (reportNameOf 0, reportHtml (dumps (postDataOf phNull eId ⟨['h']⟩)))
              emailOutcome := send_email [] true (.ok ()) }) ∧
    (contentListOf eNoContent = [⟨eNoContent.summary⟩] ∧
      (postDataOf phNull eNoContent ⟨eNoContent.summary⟩).full_content = eNoContent.summary) := by
  constructor
  · have h := (C10_full_content phNull eId [] none [] true (.ok ()) 0).1 ⟨['h']⟩ [] rfl
    exact ⟨h.1, h.2.1, h.2.2 (by decide)⟩
  · have h := (C10_full_content phNull eNoContent [] none [] true (.ok ()) 0).2 rfl
    exact ⟨h.1, h.2.1⟩

/-! ## The extractor agrees with the spec-side traversals -/

mutual

theorem findLi_node (n : Node) :
    (findAllNode [['l', 'i']] n).map getTextStrip = liTextsNode n := by
  cases n with
  | text s => rfl
  | elem t a cs =>
    simp only [findAllNode, liTextsNode]
    exact findLi_list cs

theorem findLi_list (ns : List Node) :
    (findAllNodes [['l', 'i']] ns).map getTextStrip = liTextsList ns := by
  cases ns with
  | nil => rfl
  | cons n ns =>
    simp only [findAllNodes, liTextsList, List.map_append, findLi_node n, findLi_list ns]
    cases n with
    | text s => simp [matchesTag]
    | elem t a cs => by_cases ht : t = ['l', 'i'] <;> simp [matchesTag, ht]

end

mutual

theorem groups_node (n : Node) :
    ((if matchesTag [['u', 'l'], ['o', 'l']] n then [n] else []) ++
      findAllNode [['u', 'l'], ['o', 'l']] n).filterMap groupOf = specGroupsNode n := by
  cases n with
  | text s => simp [matchesTag, findAllNode, specGroupsNode]
  | elem t a cs =>
    simp only [findAllNode, specGroupsNode, List.filterMap_append, groups_list cs]
    congr 1
    have hclean : (findAllNode [['l', 'i']] (.elem t a cs)).map getTextStrip = liTextsList cs :=
      findLi_node (.elem t a cs)
    by_cases hm : t = ['u', 'l'] ∨ t = ['o', 'l']
    · have hmt : matchesTag [['u', 'l'], ['o', 'l']] (.elem t a cs) = true := by
        simp [matchesTag]
        tauto
      rw [hmt]
      by_cases he : liTextsList cs = []
      · have : groupOf (.elem t a cs) = none := by
          simp [groupOf, hclean, he]
        simp [this, hm, he, List.filterMap_cons]
      · have : groupOf (.elem t a cs) = some (liTextsList cs) := by
          simp [groupOf, hclean, he]
        simp [this, hm, he, List.filterMap_cons]
    · have hmt : matchesTag [['u', 'l'], ['o', 'l']] (.elem t a cs) = false := by
        simp [matchesTag]
        tauto
      rw [hmt]
      simp [hm]

theorem groups_list (ns : List Node) :
    (findAllNodes [['u', 'l'], ['o', 'l']] ns).filterMap groupOf = specGroupsList ns := by
  cases ns with
  | nil => rfl
  | cons n ns =>
    simp only [findAllNodes, specGroupsList, ← List.append_assoc, List.filterMap_append,
      groups_node n, groups_list ns]

end

mutual

theorem images_node (n : Node) :
    ((if matchesTag [['i', 'm', 'g']] n then [n] else []) ++
      findAllNode [['i', 'm', 'g']] n).filterMap imgSrcOf =
      specImagesTruthyNode n := by
  cases n with
  | text s => simp [matchesTag, findAllNode, specImagesTruthyNode]
  | elem t a cs =>
    simp only [findAllNode, specImagesTruthyNode, List.filterMap_append, images_list cs]
    congr 1
    by_cases ht : t = ['i', 'm', 'g']
    · subst ht
      have hmt : matchesTag [['i', 'm', 'g']] (.elem ['i', 'm', 'g'] a cs) = true := by
        simp [matchesTag]
      rw [hmt]
      cases hg : getAttr ['s', 'r', 'c'] (Node.elem ['i', 'm', 'g'] a cs) with
      | none => simp [imgSrcOf, hg, List.filterMap_cons]
      | some v =>
        by_cases hv : v = [] <;> simp [imgSrcOf, hg, hv, List.filterMap_cons]
    · have hmt : matchesTag [['i', 'm', 'g']] (.elem t a cs) = false := by
        simp [matchesTag, ht]
      rw [hmt]
      simp [ht]

theorem images_list (ns : List Node) :
    (findAllNodes [['i', 'm', 'g']] ns).filterMap imgSrcOf =
      specImagesTruthyList ns := by
  cases ns with
  | nil => rfl
  | cons n ns =>
    simp only [findAllNodes, specImagesTruthyList, ← List.append_assoc, List.filterMap_append,
      images_node n, images_list ns]

end

/-! ## Claims C2 and C4 -/

/-- C2 fails as stated: on `<ul><li>A</li><ul><li>B</li></ul></ul>` the
extractor's groups use the `<li>` descendants at any depth
(`[["AB"-style..]]` here `[["A","B"],["B"]]`), not the direct list-item
children (`[["A"],["B"]]`). -/
theorem C2_counterexample :
    (extract_arrays_from_html nestedDoc).detected_lists ≠ specGroupsDirectList nestedDoc := by
  decide

/-- C2 (amended): for every document, `content_lists` contains, for every
list element in document order, the trimmed text of each of its list-item
descendants at any depth, and a list element yielding zero items
contributes no group. -/
theorem C2_content_lists (doc : List Node) :
    (extract_arrays_from_html doc).detected_lists = specGroupsList doc :=
  groups_list doc

/-- C4 fails in its general part: on `<img src="">` the truthiness test
`if src:` (line 62) skips the image even though it does not lack a `src`
attribute, so the extractor's images differ from the reading that skips
only attribute-less images (which would keep the empty string). -/
theorem C4_counterexample :
    (extract_arrays_from_html emptySrcDoc).images ≠ specImagesList emptySrcDoc ∧
    (extract_arrays_from_html emptySrcDoc).images = [] ∧
    specImagesList emptySrcDoc = [[]] := by
  decide

/-- C4 (amended): on the spec's test document the extractor returns
`[["A","B"],["C"]]` and `["x.png"]`, and in general the images sequence
holds the `src` of every image element in document order, skipping images
lacking a `src` attribute or carrying an empty one. -/
theorem C4_extraction :
    (extract_arrays_from_html c4doc =
      ⟨[[['A'], ['B']], [['C']]], [['x', '.', 'p', 'n', 'g']]⟩) ∧
    ∀ doc, (extract_arrays_from_html doc).images = specImagesTruthyList doc :=
  ⟨by decide, fun doc => images_list doc⟩

/-! ## Claim C3 -/

/-- C3 fails as stated: for the entry whose id is `" x "`, the first tick's
email delivery fails and the identifier is appended, yet the next tick
with the resulting history file attempts the email again: the post IS
retried, because loading strips the stored line. -/
theorem C3_counterexample :
    (job phNull [eWs] none [['r']] true (Except.error ['m']) true 0).map
      (fun eff => (eff.emailOutcome, eff.historyFile)) =
      Except.ok (⟨true, false⟩, some [' ', 'x', ' ', '\n']) ∧
    (job phNull [eWs] (some [' ', 'x', ' ', '\n']) [['r']] true (Except.error ['m']) true 1).map
      (fun eff => eff.emailOutcome.attempted) = Except.ok true :=
  ⟨by decide, by decide⟩

/-- C3 (amended): every failure inside `send_email` is caught (the tick
still returns normally), `job` appends the identifier to the history file
afterwards, and — provided the identifier contains no newline and equals
its own strip, and the history file is well formed — the post is never
retried on a later tick with that history. -/
theorem C3_email_failure (ph : PyStr → List Node) (e : Entry) (es : List Entry)
    (hist : Option PyStr) (recipients : List PyStr) (attachOk : Bool) (now : Nat)
    (msg : PyStr) (c0 : ContentItem) (cs : List ContentItem)
    (hwf : wfHist hist = true) (hn : '\n' ∉ derivedId e)
    (hs : pyStrip (derivedId e) = derivedId e)
    (hm : derivedId e ∉ load_sent_posts hist)
    (hc : contentListOf e = c0 :: cs) :
    (job ph (e :: es) hist recipients attachOk (Except.error msg) true now =
      .ok { historyFile := save_sent_post hist (derivedId e)
            reportFile := some (reportNameOf now, reportHtml (dumps (postDataOf ph e c0)))
            emailOutcome := send_email recipients attachOk (Except.error msg) }) ∧
    (recipients ≠ [] →
      (send_email recipients attachOk (Except.error msg)).attempted = true ∧
      (send_email recipients attachOk (Except.error msg)).delivered = false) ∧
    (∀ ph2 es2 recipients2 attachOk2 smtp2 writeOk2 now2,
      job ph2 (e :: es2) (save_sent_post hist (derivedId e)) recipients2 attachOk2
          smtp2 writeOk2 now2 =
        .ok (skipEffects (save_sent_post hist (derivedId e)))) := by
  refine ⟨job_success ph e es hist recipients attachOk (Except.error msg) now c0 cs hm hc,
    ?_, ?_⟩
  · intro hr
    cases attachOk <;> simp [send_email, hr]
  · intro ph2 es2 recipients2 attachOk2 smtp2 writeOk2 now2
    exact job_skip ph2 e es2 _ recipients2 attachOk2 smtp2 writeOk2 now2
      (mem_load_save hist (derivedId e) hwf hn hs)

/-- Witness for C3 (amended) at a concrete entry, history and failing
SMTP session. -/
theorem C3_witness :
    (job phNull [eId] none [['r']] true (Except.error ['m']) true 0 =
      .ok { historyFile := save_sent_post none (derivedId eId)
            reportFile := some (reportNameOf 0, reportHtml (dumps (postDataOf phNull eId ⟨['h']⟩)))
            emailOutcome := send_email [['r']] true (Except.error ['m']) }) ∧
    ((send_email [['r']] true (Except.error ['m'])).attempted = true ∧
      (send_email [['r']] true (Except.error ['m'])).delivered = false) ∧
    job phNull [eId] (save_sent_post none (derivedId eId)) [['r']] true
        (Except.error ['m']) true 1 =
      .ok (skipEffects (save_sent_post none (derivedId eId))) :=
  have h := C3_email_failure phNull eId [] none [['r']] true 0 ['m'] ⟨['h']⟩ []
    rfl (by decide) (by decide) (by decide) rfl
  ⟨h.1, h.2.1 (by decide), h.2.2 phNull [] [['r']] true (Except.error ['m']) true 1⟩

/-! ## Round trip of the serialized report -/

theorem char_toNat_valid (c : Char) :
    c.toNat < 0xd800 ∨ (0xdfff < c.toNat ∧ c.toNat < 0x110000) := by
  rcases c.valid with h | ⟨h1, h2⟩
  · left
    exact_mod_cast h
  · right
    constructor
    · exact_mod_cast h1
    · exact_mod_cast h2

theorem hexVal_hexDigit (d : Nat) (h : d < 16) : hexVal (hexDigit d) = some d := by
  interval_cases d <;> decide

theorem hex4Val_hex4 (n : Nat) (h : n < 65536) :
    hex4Val (hexDigit (n / 4096 % 16)) (hexDigit (n / 256 % 16))
      (hexDigit (n / 16 % 16)) (hexDigit (n % 16)) = some n := by
  have h1 : n / 4096 % 16 < 16 := Nat.mod_lt _ (by omega)
  have h2 : n / 256 % 16 < 16 := Nat.mod_lt _ (by omega)
  have h3 : n / 16 % 16 < 16 := Nat.mod_lt _ (by omega)
  have h4 : n % 16 < 16 := Nat.mod_lt _ (by omega)
  simp only [hex4Val, hexVal_hexDigit _ h1, hexVal_hexDigit _ h2, hexVal_hexDigit _ h3,
    hexVal_hexDigit _ h4, Option.some.injEq]
  omega

theorem parseStrBody_escList (s : PyStr) : ∀ rest : PyStr,
    parseStrBody (escList s ++ ('"' :: rest)) = some (s, rest) := by
  induction s with
  | nil => intro rest; simp [escList, parseStrBody]
  | cons c s ih =>
    intro rest
    rw [escList, List.append_assoc]
    by_cases h1 : c = '"'
    · subst h1
      simp [escapeChar, parseStrBody, ih]
    by_cases h2 : c = '\\'
    · subst h2
      simp [escapeChar, parseStrBody, ih]
    by_cases h3 : c = '\n'
    · subst h3
      simp [escapeChar, parseStrBody, ih]
    by_cases h4 : c = '\x0d'
    · subst h4
      simp [escapeChar, parseStrBody, ih]
    by_cases h5 : c = '\t'
    · subst h5
      simp [escapeChar, parseStrBody, ih]
    by_cases h6 : c = '\x08'
    · subst h6
      simp [escapeChar, parseStrBody, ih]
    by_cases h7 : c = '\x0c'
    · subst h7
      simp [escapeChar, parseStrBody, ih]
    by_cases h8 : 0x20 ≤ c.toNat ∧ c.toNat ≤ 0x7e
    · have hesc : escapeChar c = [c] := by
        simp [escapeChar, h1, h2, h3, h4, h5, h6, h7, h8]
      rw [hesc]
      have hlt : ¬ c.toNat < 0x20 := by omega
      simp [parseStrBody, h1, h2, hlt, ih]
    by_cases h9 : c.toNat < 0x10000
    · have hesc : escapeChar c = '\\' :: 'u' :: hex4 c.toNat := by
        simp [escapeChar, h1, h2, h3, h4, h5, h6, h7, h8, h9]
      rw [hesc, hex4]
      have hval := char_toNat_valid c
      have hg1 : ¬ (0xd800 ≤ c.toNat ∧ c.toNat < 0xdc00) := by omega
      have hg2 : ¬ (0xdc00 ≤ c.toNat ∧ c.toNat < 0xe000) := by omega
      simp [parseStrBody, hex4Val_hex4 c.toNat h9, hg1, hg2, ih, Char.ofNat_toNat]
    · have hesc : escapeChar c =
          ('\\' :: 'u' :: hex4 (0xd800 + (c.toNat - 0x10000) / 0x400)) ++
          ('\\' :: 'u' :: hex4 (0xdc00 + (c.toNat - 0x10000) % 0x400)) := by
        simp [escapeChar, h1, h2, h3, h4, h5, h6, h7, h8, h9]
      rw [hesc]
      have hval := char_toNat_valid c
      have hdiv : (c.toNat - 0x10000) / 0x400 < 0x400 := by omega
      have hmod : (c.toNat - 0x10000) % 0x400 < 0x400 := Nat.mod_lt _ (by omega)
      have hhi : 0xd800 + (c.toNat - 0x10000) / 0x400 < 0x10000 := by omega
      have hlo : 0xdc00 + (c.toNat - 0x10000) % 0x400 < 0x10000 := by omega
      have hg1 : 0xd800 ≤ 0xd800 + (c.toNat - 0x10000) / 0x400 ∧
          0xd800 + (c.toNat - 0x10000) / 0x400 < 0xdc00 := by omega
      have hg2 : 0xdc00 ≤ 0xdc00 + (c.toNat - 0x10000) % 0x400 ∧
          0xdc00 + (c.toNat - 0x10000) % 0x400 < 0xe000 := by omega
      rw [hex4, hex4]
      simp [parseStrBody, hex4Val_hex4 _ hhi, hex4Val_hex4 _ hlo, hg1, hg2, ih]
      have hcomb : 65536 + (c.toNat - 65536) / 1024 * 1024 + (c.toNat - 65536) % 1024 =
          c.toNat := by omega
      rw [hcomb, Char.ofNat_toNat]

theorem dropLit_self (p : PyStr) : ∀ s : PyStr, dropLit p (p ++ s) = some s := by
  induction p with
  | nil => intro s; rfl
  | cons c p ih => intro s; simp [dropLit, ih]

theorem parseJStr_enc (x : PyStr) (r : PyStr) : parseJStr (encStr x ++ r) = some (x, r) := by
  show parseJStr ('"' :: (escList x ++ ['"']) ++ r) = some (x, r)
  simp only [List.cons_append, List.append_assoc, List.singleton_append, parseJStr,
    if_pos rfl]
  exact parseStrBody_escList x r

theorem dropLit_cons (c : Char) (p s : PyStr) : dropLit (c :: p) (c :: s) = dropLit p s := by
  simp [dropLit]

theorem parseItemsRest_round {α : Type} (pItem : PyStr → Option (α × PyStr)) (lvl : Nat)
    (render : α → PyStr) :
    ∀ (xs : List α) (fuel : Nat) (rest : PyStr), xs.length < fuel →
      (∀ x ∈ xs, ∀ r : PyStr, pItem (render x ++ r) = some (x, r)) →
      parseItemsRest pItem lvl fuel (dumpsItemsRest lvl render xs ++ rest) =
        some (xs, rest) := by
  intro xs
  induction xs with
  | nil =>
    intro fuel rest hf hitems
    match fuel, hf with
    | fuel + 1, _ =>
      rw [dumpsItemsRest, parseItemsRest]
      have hsep : dropLit (',' :: '\n' :: spaces ((lvl + 1) * 4))
          (('\n' :: (spaces (lvl * 4) ++ [']'])) ++ rest) = none := by
        simp [dropLit]
      rw [hsep]
      have hend : dropLit ('\n' :: (spaces (lvl * 4) ++ [']']))
          (('\n' :: (spaces (lvl * 4) ++ [']'])) ++ rest) = some rest := dropLit_self _ rest
      rw [hend]
      rfl
  | cons x xs ih =>
    intro fuel rest hf hitems
    match fuel, hf with
    | fuel + 1, hf1 =>
      rw [dumpsItemsRest, parseItemsRest]
      have hsep : dropLit (',' :: '\n' :: spaces ((lvl + 1) * 4))
          (',' :: '\n' :: (spaces ((lvl + 1) * 4) ++
            (render x ++ (dumpsItemsRest lvl render xs ++ rest)))) =
          some (render x ++ (dumpsItemsRest lvl render xs ++ rest)) := by
        rw [dropLit_cons, dropLit_cons]
        exact dropLit_self _ _
      simp [hsep, hitems x (List.mem_cons_self x xs),
        ih fuel rest (by simp only [List.length_cons] at hf1; omega)
          (fun y hy r => hitems y (List.mem_cons_of_mem x hy) r)]

theorem parseArr_round {α : Type} (pItem : PyStr → Option (α × PyStr)) (lvl : Nat)
    (render : α → PyStr) (xs : List α) (fuel : Nat) (rest : PyStr) (hf : xs.length < fuel)
    (hitems : ∀ x ∈ xs, ∀ r : PyStr, pItem (render x ++ r) = some (x, r)) :
    parseArr pItem lvl fuel (dumpsList lvl render xs ++ rest) = some (xs, rest) := by
  cases xs with
  | nil =>
    rw [dumpsList, parseArr]
    have h : dropLit ['[', ']'] (['[', ']'] ++ rest) = some rest := dropLit_self _ rest
    simp only [h]
  | cons x xs =>
    rw [dumpsList, parseArr]
    have hne : dropLit ['[', ']']
        ('[' :: '\n' :: (spaces ((lvl + 1) * 4) ++ (render x ++ (dumpsItemsRest lvl render xs ++ rest)))) =
        none := by
      simp [dropLit]
    have hopen : dropLit ('[' :: '\n' :: spaces ((lvl + 1) * 4))
        ('[' :: '\n' :: (spaces ((lvl + 1) * 4) ++ (render x ++ (dumpsItemsRest lvl render xs ++ rest)))) =
        some (render x ++ (dumpsItemsRest lvl render xs ++ rest)) := by
      rw [dropLit_cons, dropLit_cons]
      exact dropLit_self _ _
    simp [hne, hopen, hitems x (List.mem_cons_self x xs),
      parseItemsRest_round pItem lvl render xs fuel rest
        (by simp only [List.length_cons] at hf; omega)
        (fun y hy r => hitems y (List.mem_cons_of_mem x hy) r)]

theorem dropLit_nil (s : PyStr) : dropLit [] s = some s := rfl

theorem dumpsItemsRest_length {α : Type} (lvl : Nat) (render : α → PyStr) (xs : List α) :
    xs.length ≤ (dumpsItemsRest lvl render xs).length := by
  induction xs with
  | nil => simp [dumpsItemsRest]
  | cons x xs ih =>
    simp only [dumpsItemsRest, List.length_cons, List.length_append]
    omega

theorem dumpsList_length {α : Type} (lvl : Nat) (render : α → PyStr) (xs : List α) :
    xs.length ≤ (dumpsList lvl render xs).length := by
  cases xs with
  | nil => simp [dumpsList]
  | cons x xs =>
    have h := dumpsItemsRest_length lvl render xs
    simp only [dumpsList, List.length_cons, List.length_append]
    omega

theorem mem_dumpsItemsRest_length {α : Type} (lvl : Nat) (render : α → PyStr) (x : α)
    (xs : List α) (hx : x ∈ xs) : (render x).length ≤ (dumpsItemsRest lvl render xs).length := by
  induction xs with
  | nil => cases hx
  | cons y ys ih =>
    rcases List.mem_cons.mp hx with h | h
    · subst h
      simp only [dumpsItemsRest, List.length_cons, List.length_append]
      omega
    · have := ih h
      simp only [dumpsItemsRest, List.length_cons, List.length_append]
      omega

theorem mem_dumpsList_length {α : Type} (lvl : Nat) (render : α → PyStr) (x : α)
    (xs : List α) (hx : x ∈ xs) : (render x).length ≤ (dumpsList lvl render xs).length := by
  cases xs with
  | nil => cases hx
  | cons y ys =>
    rcases List.mem_cons.mp hx with h | h
    · subst h
      simp only [dumpsList, List.length_cons, List.length_append]
      omega
    · have := mem_dumpsItemsRest_length lvl render x ys h
      simp only [dumpsList, List.length_cons, List.length_append]
      omega

theorem dumps_length_bounds (pd : PostData) :
    pd.tags.length ≤ (dumps pd).length ∧
    pd.images.length ≤ (dumps pd).length ∧
    pd.content_lists.length ≤ (dumps pd).length ∧
    ∀ x ∈ pd.content_lists, x.length ≤ (dumps pd).length := by
  have htags := dumpsList_length 1 encStr pd.tags
  have himgs := dumpsList_length 1 encStr pd.images
  have hcls := dumpsList_length 1 (dumpsList 2 encStr) pd.content_lists
  refine ⟨?_, ?_, ?_, ?_⟩
  · simp only [dumps, List.length_append, List.length_cons]
    omega
  · simp only [dumps, List.length_append, List.length_cons]
    omega
  · simp only [dumps, List.length_append, List.length_cons]
    omega
  · intro x hx
    have h1 := dumpsList_length 2 encStr x
    have h2 := mem_dumpsList_length 1 (dumpsList 2 encStr) x pd.content_lists hx
    simp only [dumps, List.length_append, List.length_cons]
    omega

theorem parsePostF_dumps (F : Nat) (pd : PostData)
    (hb1 : pd.tags.length < F) (hb2 : pd.images.length < F)
    (hb3 : pd.content_lists.length < F) (hb4 : ∀ x ∈ pd.content_lists, x.length < F) :
    parsePostF F (dumps pd) = some pd := by
  have htags : ∀ r, parseArr parseJStr 1 F (dumpsList 1 encStr pd.tags ++ r) =
      some (pd.tags, r) :=
    fun r => parseArr_round parseJStr 1 encStr pd.tags F r hb1 (fun y _ r' => parseJStr_enc y r')
  have himgs : ∀ r, parseArr parseJStr 1 F (dumpsList 1 encStr pd.images ++ r) =
      some (pd.images, r) :=
    fun r => parseArr_round parseJStr 1 encStr pd.images F r hb2 (fun y _ r' => parseJStr_enc y r')
  have hinner : ∀ x ∈ pd.content_lists, ∀ r : PyStr,
      (fun t => parseArr parseJStr 2 F t) (dumpsList 2 encStr x ++ r) = some (x, r) :=
    fun x hx r =>
      parseArr_round parseJStr 2 encStr x F r (hb4 x hx) (fun y _ r' => parseJStr_enc y r')
  have hcls : ∀ r, parseArr (fun t => parseArr parseJStr 2 F t) 1 F
      (dumpsList 1 (dumpsList 2 encStr) pd.content_lists ++ r) = some (pd.content_lists, r) :=
    fun r => parseArr_round _ 1 (dumpsList 2 encStr) pd.content_lists F r hb3 hinner
  simp only [parsePostF, dumps, List.append_assoc, List.cons_append, List.nil_append,
    dropLit_cons, dropLit_nil, dropLit_self, parseJStr_enc, htags, himgs, hcls]
  simp

theorem parsePost_dumps (pd : PostData) : parsePost (dumps pd) = some pd := by
  have hb := dumps_length_bounds pd
  show parsePostF ((dumps pd).length + 1) (dumps pd) = some pd
  exact parsePostF_dumps ((dumps pd).length + 1) pd (by omega) (by omega) (by omega)
    (fun x hx => by have := hb.2.2.2 x hx; omega)

/-! ## Claim C6 -/

/-- C6: the generated artifact is the indented JSON serialization of the
post record embedded verbatim between the fixed wrapper texts (inside the
text area), and parsing that embedded JSON back yields the record
field-for-field. -/
theorem C6_report_round_trip (pd : PostData) :
    reportHtml (dumps pd) = wrapperPre ++ dumps pd ++ wrapperSuf ∧
    parsePost (dumps pd) = some pd :=
  ⟨rfl, parsePost_dumps pd⟩
